import Mathlib

/-!
Verification of the `xmltokenizer` Go package (file `tokenizer.go`).

The embedding below is a byte-level translation of the source.  Bytes are
modelled as `Nat` (only equality comparisons occur, never arithmetic on byte
values).  The `io.Reader` supplied to the tokenizer is modelled as the list of
bytes not yet read (the behaviour of `bytes.Reader`: a read returns
`min(len(p), remaining)` bytes, and `(0, io.EOF)` when empty, which makes
`io.ReadAtLeast(r, p, 1)` return `io.EOF` exactly when no byte is available).

Go slices of the internal buffer are modelled by value (`List Nat`); this is
faithful because the buffer is never mutated between the creation of a view
and its use.  Go's `nil` slice versus empty slice distinction, which the
public `Token` method makes observable on the `Attrs` and `Data` fields, is
modelled with `Option (List _)` (`none` = nil).  Loops are modelled by
fuel-indexed structural recursion; every call site passes fuel that dominates
the number of iterations the Go loop can perform there, and running out of
fuel is a distinguished outcome (`outOfFuel`) that no theorem below treats as
normal behaviour.  Go runtime panics from out-of-range indexing /slicing —
reachable in the decomposer on malformed partial tokens, and in
`findTokenEnd`'s nested-construct slice `t.buf[left+1 : right-1]` when
`left+1 > right-1` — are modelled by the distinguished outcome `panicked`.

Relevant ASCII codes used throughout: 60 `<`, 62 `>`, 33 `!`, 63 `?`,
47 `/`, 34 `"`, 61 `=`, 58 `:`, 45 `-`, 32 space, 9 tab, 13 CR, 10 LF.
-/

namespace XmlTokenizer

/-- A byte.  Values are always in 0..255; only equality is ever used. -/
abbrev Byte := Nat

/-- `bytes.IndexByte` / `bytes.IndexAny`, generalised to a predicate:
index of the first byte satisfying `p`, or `none` (Go returns -1). -/
def goFindIdx (p : Byte → Bool) : List Byte → Option Nat
| [] => none
| c :: r => if p c then some 0 else (goFindIdx p r).map (· + 1)

/-- `bytes.Count` for a single byte. -/
def countByte (c : Byte) : List Byte → Nat
| [] => 0
| d :: r => (if d = c then 1 else 0) + countByte c r

/-- Go indexing `b[i]` (call sites below only use it where the Go code has
established `i < len(b)`; the default 0 is never observable there). -/
def byteAt (l : List Byte) (i : Nat) : Byte := l.getD i 0

/-- Go slicing `b[lo:hi]`.  For `lo ≤ hi ≤ len b` this is the Go slice; Go
panics when `lo > hi`, which call sites below model separately where it is
reachable. -/
def goSlice (b : List Byte) (lo hi : Nat) : List Byte := (b.take hi).drop lo

/-- `tokenizer.go` name `Name`: prefix/local/full of a tag or attribute name.
Field names `pfx`/`loc` stand for the source's `Prefix`/`Local`. -/
structure GoName where
  pfx : List Byte
  loc : List Byte
  full : List Byte
deriving DecidableEq, Repr

/-- `tokenizer.go` `Attr`. -/
structure GoAttr where
  name : GoName
  value : List Byte
deriving DecidableEq, Repr

/-- `tokenizer.go` `Token`.  `attrs`/`data` use `Option` to keep Go's
nil-versus-empty-slice distinction (`none` = nil). -/
structure GoToken where
  name : GoName
  attrs : Option (List GoAttr)
  data : Option (List Byte)
  selfClosing : Bool
  isEndElement : Bool
deriving DecidableEq, Repr

/-- The zero value `Token{}` (what a naked `return` yields on error paths). -/
def zeroToken : GoToken := ⟨⟨[], [], []⟩, none, none, false, false⟩

/-- The error values that can flow through the tokenizer:
`io.EOF`, `io.ErrUnexpectedEOF`, `errAutoGrowBufferExceedMaxLimit`, the
`fmt.Errorf("could not grow buffer to %d, max limit is set to %d: %w", ...)`
wrapper from `manageBuffer`, and the `fmt.Errorf("byte pos %d: %w", ...)`
wrapper from `Token`. -/
inductive GoErr
| eof
| unexpectedEOF
| autoGrowExceeded
| couldNotGrow (growSize maxLimit : Int) (e : GoErr)
| bytePos (n : Int) (e : GoErr)
deriving DecidableEq, Repr

/-- `errors.Is(e, io.EOF)` (unwrapping the two `fmt.Errorf` `%w` wrappers). -/
def isEOFErr : GoErr → Bool
| .eof => true
| .couldNotGrow _ _ e => isEOFErr e
| .bytePos _ e => isEOFErr e
| _ => false

/-- `errors.Is(e, io.ErrUnexpectedEOF)`. -/
def isUnexpEOFErr : GoErr → Bool
| .unexpectedEOF => true
| .couldNotGrow _ _ e => isUnexpEOFErr e
| .bytePos _ e => isUnexpEOFErr e
| _ => false

/-- `tokenizer.go` `options` (fields are Go `int`). -/
structure OptionsI where
  readBufferSize : Int
  autoGrowBufferMaxLimitSize : Int
  attrsBufferSize : Int
deriving DecidableEq, Repr

/-- `defaultOptions()`: 4 << 10, 1000 << 10, 16. -/
def defaultOptionsI : OptionsI := ⟨4096, 1024000, 16⟩

/-- The three public `Option` constructors of the package. -/
inductive GoOpt
| withReadBufferSize (size : Int)
| withAutoGrowBufferMaxLimitSize (size : Int)
| withAttrBufferSize (size : Int)
deriving DecidableEq, Repr

/-- Applying one option: each `WithX(size)` substitutes the package default
when `size <= 0` and otherwise stores `size`. -/
def applyOpt (o : OptionsI) : GoOpt → OptionsI
| .withReadBufferSize s =>
    { o with readBufferSize := if s ≤ 0 then 4096 else s }
| .withAutoGrowBufferMaxLimitSize s =>
    { o with autoGrowBufferMaxLimitSize := if s ≤ 0 then 1024000 else s }
| .withAttrBufferSize s =>
    { o with attrsBufferSize := if s ≤ 0 then 16 else s }

/-- Applying a list of options in order, as `Reset` does. -/
def applyOpts (o : OptionsI) : List GoOpt → OptionsI
| [] => o
| g :: r => applyOpts (applyOpt o g) r

/-- `tokenizer.go` `Tokenizer` state.  `src` is the unread remainder of the
reader; `bufCap` is `cap(t.buf)` (it decides the reslice-versus-reallocate
branch in `manageBuffer`, and only the reallocate branch checks the max
limit, so capacity is observable). -/
structure Tokenizer where
  src : List Byte
  n : Int
  opts : OptionsI
  buf : List Byte
  bufCap : Nat
  cur : Nat
  err : Option GoErr
  token : GoToken
deriving DecidableEq, Repr

/-- `New(r, opts...)`, i.e. `Reset` on a fresh tokenizer.  On a fresh
tokenizer `cap(t.buf) = 0 < size + defaultReadBufferSize`, so the buffer is
`make([]byte, size, size+4096)`: `size` zero bytes with `4096` spare
capacity.  (Those zero bytes are genuinely scanned by `RawToken`; being
non-`<` they are skipped.) -/
def mkTokenizer (src : List Byte) (opts : List GoOpt) : Tokenizer :=
  let o := applyOpts defaultOptionsI opts
  let o := if o.readBufferSize > o.autoGrowBufferMaxLimitSize then
             { o with autoGrowBufferMaxLimitSize := o.readBufferSize } else o
  let size := o.readBufferSize.toNat
  { src := src, n := 0, opts := o,
    buf := List.replicate size 0,
    bufCap := size + 4096,
    cur := 0, err := none,
    token := ⟨⟨[], [], []⟩, some [], none, false, false⟩ }

/-- `memmoveRemainingBytes`: returns the updated state plus the pair
`(t.cur, len(t.buf))` the Go method returns. -/
def memmoveRemainingBytes (t : Tokenizer) (pivot : Nat) : Tokenizer × Nat × Nat :=
  if pivot = 0 then (t, t.cur, t.buf.length)
  else
    let buf := t.buf.drop pivot
    ({ t with buf := buf, cur := 0 }, 0, buf.length)

/-- The read step of `manageBuffer`: `io.ReadAtLeast(t.r, t.buf[start:end], 1)`
with `start = len(t.buf)`, `end = gs`, against a `bytes.Reader`-like source:
it obtains `min(end-start, len(src))` bytes and fails with `io.EOF` exactly
when that is zero.  The buffer is truncated to `start+n` afterwards, so bytes
of the backing array beyond that are never observable. -/
def readAtLeast (t : Tokenizer) (gs : Nat) : Tokenizer × Option GoErr :=
  let space := gs - t.buf.length
  let m := min space t.src.length
  if m = 0 then (t, some .eof)
  else ({ t with
           buf := t.buf ++ t.src.take m
           src := t.src.drop m
           n := t.n + (m : Int) }, none)

/-- `manageBuffer`: grow by `readBufferSize`; reslice in place when the new
length fits the capacity (no limit check on this branch), otherwise
reallocate, which fails with the wrapped `errAutoGrowBufferExceedMaxLimit`
when the new size exceeds `autoGrowBufferMaxLimitSize`. -/
def manageBuffer (t : Tokenizer) : Tokenizer × Option GoErr :=
  let gs := t.buf.length + t.opts.readBufferSize.toNat
  if gs ≤ t.bufCap then readAtLeast t gs
  else if (gs : Int) > t.opts.autoGrowBufferMaxLimitSize then
    (t, some (.couldNotGrow (gs : Int) t.opts.autoGrowBufferMaxLimitSize .autoGrowExceeded))
  else readAtLeast { t with bufCap := gs } gs

/-- The literal `<![CDATA[`. -/
def cdataOpen : List Byte := [60, 33, 91, 67, 68, 65, 84, 65, 91]

/-- The literal `]]>`. -/
def cdataClose : List Byte := [93, 93, 62]

/-- Result of `findTokenEnd`: the index one past the construct's closing
`>` (`found`), Go's `-1` (`more`: more data must be buffered), or the Go
runtime panic from the nested-construct slice `t.buf[left+1 : right-1]`
when `left+1 > right-1` (slice bounds out of range). -/
inductive FindEnd
| found (pos : Nat)
| more
| panicked
deriving DecidableEq, Repr

/-- `findTokenEnd`, fuel-indexed.  `pivot` is the position of the opening
`<`; `left` is the loop variable (initially `pivot+1`).  A unit of fuel is
consumed per loop iteration and per recursive descent into a nested
construct; callers pass fuel that dominates the possible number of steps.
In the DOCTYPE branch the source evaluates
`bytes.IndexByte(t.buf[left+1:right-1], '<')`; the slice expression panics
when `left+1 > right-1`, i.e. when the candidate `>` sits directly at the
scan point. -/
def findTokenEnd (fuel : Nat) (buf : List Byte) (pivot left : Nat) : FindEnd :=
  match fuel with
  | 0 => .more
  | fuel + 1 =>
    match goFindIdx (fun c => c = 62) (buf.drop left) with
    | none => .more
    | some p =>
      let right := left + p + 1
      if byteAt buf (pivot + 1) = 63 then
        -- processing instruction: accept only a `?>` terminator
        if right ≥ pivot + 3 ∧ byteAt buf (right - 2) = 63 then .found right
        else findTokenEnd fuel buf pivot right
      else if byteAt buf (pivot + 1) = 33 then
        if buf.length > pivot + 4 ∧ byteAt buf (pivot + 2) = 45 ∧ byteAt buf (pivot + 3) = 45 then
          -- comment: accept only a `-->` terminator
          if right ≥ pivot + 6 ∧ byteAt buf (right - 3) = 45 ∧ byteAt buf (right - 2) = 45 then
            .found right
          else findTokenEnd fuel buf pivot right
        else if left + 1 > right - 1 then .panicked
        else
          -- DOCTYPE, ENTITY etc: resolve a nested construct first if present
          match goFindIdx (fun c => c = 60) (goSlice buf (left + 1) (right - 1)) with
          | some p2 =>
            match findTokenEnd fuel buf (left + p2 + 1) (left + p2 + 2) with
            | .more => .more
            | .panicked => .panicked
            | .found left2 => findTokenEnd fuel buf pivot left2
          | none =>
            if countByte 34 (goSlice buf left right) % 2 = 0 then .found right
            else
              match goFindIdx (fun c => c = 34) (buf.drop right) with
              | none => .more
              | some p3 => findTokenEnd fuel buf pivot (right + p3 + 1)
      else
        if countByte 34 (goSlice buf left right) % 2 = 0 then .found right
        else
          match goFindIdx (fun c => c = 34) (buf.drop right) with
          | none => .more
          | some p3 => findTokenEnd fuel buf pivot (right + p3 + 1)

/-- Inner loop of `parseCharData` (the `<![CDATA[`-recognition scan starting
just after a `<` found at `i = pos + 1 - 1`; `k` is the match position in the
CDATA opener).  Returns the final `(state, pivot, pos)`; every exit of this
loop is immediately followed by the `break` of the outer loop in Go, so its
result is the result of `parseCharData`. -/
def pcdInner (fuel : Nat) (t : Tokenizer) (pivot pos j k : Nat) :
    Option (Tokenizer × Nat × Nat) :=
  match fuel with
  | 0 => none
  | fuel + 1 =>
    if j ≥ t.buf.length then
      let prevLast := t.buf.length
      let (t, pivot, j) := memmoveRemainingBytes t pivot
      let pos := pos - (prevLast - t.buf.length)
      let (t, e) := manageBuffer t
      match e with
      | some e0 =>
        let e1 := if isEOFErr e0 then GoErr.unexpectedEOF else e0
        some ({ t with err := some e1 }, pivot, pos)
      | none => pcdInner fuel t pivot pos j k
    else if k < 9 then
      if byteAt t.buf j ≠ byteAt cdataOpen k then some (t, pivot, pos)
      else pcdInner fuel t pivot pos (j + 1) (k + 1)
    else if byteAt t.buf j = 62 ∧ goSlice t.buf (j - 2) (j + 1) = cdataClose then
      some (t, pivot, j)
    else pcdInner fuel t pivot pos (j + 1) k

/-- Outer loop of `parseCharData`: scan forward from `pos` for the next `<`.
On refill failure here the raw (unconverted) error is recorded. -/
def pcdOuter (fuel : Nat) (t : Tokenizer) (pivot pos i : Nat) :
    Option (Tokenizer × Nat × Nat) :=
  match fuel with
  | 0 => none
  | fuel + 1 =>
    if i ≥ t.buf.length then
      let (t, pivot, i) := memmoveRemainingBytes t pivot
      let pos := i - 1
      let (t, e) := manageBuffer t
      match e with
      | some e0 => some ({ t with err := some e0 }, pivot, pos)
      | none => pcdOuter fuel t pivot pos i
    else if byteAt t.buf i ≠ 60 then pcdOuter fuel t pivot pos (i + 1)
    else pcdInner fuel t pivot (i - 1) (i + 1) 1

/-- `parseCharData(pivot, pos)`.  The fuel dominates the number of loop
steps: positions only advance (bounded by the final buffer length, itself
bounded by `len(buf) + len(src)`), refills are bounded by `len(src) + 1`,
and the CDATA opener adds at most 9 steps. -/
def parseCharData (t : Tokenizer) (pivot pos : Nat) : Option (Tokenizer × Nat × Nat) :=
  pcdOuter (2 * t.buf.length + 4 * t.src.length + 64) t pivot pos pos

/-- Result of `RawToken`: the returned byte view (`none` = Go `nil`), the
returned error, and the updated state; `panicked` propagates the
`findTokenEnd` slice panic. -/
inductive RawResult
| ok (b : Option (List Byte)) (err : Option GoErr) (t : Tokenizer)
| panicked
| outOfFuel
deriving DecidableEq, Repr

/-- `trimPrefix`'s index walk: Go iterates `i` over `b` accumulating `start`;
a `\r\n` pair advances `start` by 2, a lone `\r` is stepped over without
advancing `start` (and without stopping), LF/space/tab advance `start` by 1,
anything else stops.  Returns the final `start`. -/
def tpWalk : List Byte → Nat → Nat
| [], start => start
| c :: rest, start =>
  if c = 13 then
    if rest.head? = some 10 then tpWalk rest (start + 1) else tpWalk rest start
  else if c = 10 ∨ c = 32 ∨ c = 9 then tpWalk rest (start + 1) else start

/-- `trimPrefix`: `b[start:]` for the walked `start`. -/
def trimLeading (b : List Byte) : List Byte := b.drop (tpWalk b 0)

/-- `trimSuffix`'s index walk over the reversed list, tracking `end`.
Go scans `i` from the last index down: LF decrements `end` (and once more
when `i-1 > 0` and `b[i-1]` is CR — but then the next iteration looks at that
CR, which is not a switch case, so the loop stops); space/tab decrement
`end`; anything else stops.  The argument list is `b.reverse`; a byte at
reversed position with `rest` remaining corresponds to original index
`rest.length`. -/
def tsWalk : List Byte → Nat → Nat
| [], e => e
| c :: rest, e =>
  if c = 10 then
    if rest.head? = some 13 then (if 2 ≤ rest.length then e - 2 else e - 1)
    else tsWalk rest (e - 1)
  else if c = 32 ∨ c = 9 then tsWalk rest (e - 1)
  else e

/-- `trimSuffix`: `b[:end]` for the walked `end`. -/
def trimTrailing (b : List Byte) : List Byte := b.take (tsWalk b.reverse b.length)

/-- `trim`: `trimSuffix(trimPrefix(b))`. -/
def trim (b : List Byte) : List Byte := trimTrailing (trimLeading b)

/-- The whitespace bytes the trim walks handle symmetrically: LF, space,
tab.  (CR participates only through CR-LF pairing, absent on CR-free
input.) -/
def wsb (c : Byte) : Bool := c == 10 || c == 32 || c == 9

/-- Left trim by `wsb`: what `trimPrefix` computes on CR-free input. -/
def ldw (l : List Byte) : List Byte := l.dropWhile wsb

/-- Right trim by `wsb`: what `trimSuffix` computes on CR-free input. -/
def rdw (l : List Byte) : List Byte := (l.reverse.dropWhile wsb).reverse

/-- The closing-`>` loop of `RawToken`: find the end of the construct opened
at `pivot`, refilling as needed; non-`?`/`!` constructs then absorb trailing
character data via `parseCharData`.  Note the success path returns a nil
error even when `parseCharData` recorded an error into `t.err`. -/
def rtFindEnd (fuel : Nat) (t : Tokenizer) (pivot : Nat) : RawResult :=
  match fuel with
  | 0 => .outOfFuel
  | fuel + 1 =>
    match findTokenEnd (2 * t.buf.length + 2) t.buf pivot (pivot + 1) with
    | .panicked => .panicked
    | .more =>
      let (t, pivot, pos) := memmoveRemainingBytes t pivot
      let (t, e) := manageBuffer t
      match e with
      | none => rtFindEnd fuel t pivot
      | some e0 =>
        let e1 := if isEOFErr e0 then GoErr.unexpectedEOF else e0
        .ok (some (goSlice t.buf pivot pos)) (some e1) { t with err := some e1 }
    | .found pos =>
      if byteAt t.buf (pivot + 1) = 63 ∨ byteAt t.buf (pivot + 1) = 33 then
        .ok (some (trim (goSlice t.buf pivot pos))) none { t with cur := pos }
      else
        match parseCharData t pivot pos with
        | none => .outOfFuel
        | some (t, pivot, pos) =>
          let pos := pos + 1
          .ok (some (trim (goSlice t.buf pivot pos))) none { t with cur := pos }

/-- The opening-`<` loop of `RawToken`: locate the next `<` from the cursor,
compacting and refilling when the live region holds none. -/
def rtFindOpen (fuel : Nat) (t : Tokenizer) : RawResult :=
  match fuel with
  | 0 => .outOfFuel
  | fuel + 1 =>
    match goFindIdx (fun c => c = 60) (t.buf.drop t.cur) with
    | none =>
      let (t, _, _) := memmoveRemainingBytes t t.cur
      let (t, e) := manageBuffer t
      match e with
      | none => rtFindOpen fuel t
      | some e0 => .ok none (some e0) { t with err := some e0 }
    | some p => rtFindEnd (t.src.length + 2) t (t.cur + p)

/-- `RawToken()`.  Sticky guard first; each refill loop is given fuel
`len(src) + 2`, which dominates its iteration count (every successful refill
consumes at least one source byte and an unsuccessful one ends the loop). -/
def rawToken (t : Tokenizer) : RawResult :=
  match t.err with
  | some e => .ok none (some e) t
  | none => rtFindOpen (t.src.length + 2) t

/-- Result of `Token`: the returned token, returned error and new state;
`panicked` models a Go runtime panic from out-of-range indexing or slicing
in the decomposer (reachable only on malformed partial spans). -/
inductive TokResult
| ok (tok : GoToken) (err : Option GoErr) (t : Tokenizer)
| panicked
| outOfFuel
deriving DecidableEq, Repr

/-- `clearToken`.  The `consume*` methods of the source mutate only
`t.token`; they are therefore modelled as functions on `GoToken`, with the
state update applied once at the end of `Token()`.  `t.token.Attrs[:0]`
keeps a nil `Attrs` nil and an allocated one empty-but-non-nil, hence the
`Option.map`. -/
def clearToken (tk : GoToken) : GoToken :=
  { name := ⟨[], [], []⟩,
    attrs := tk.attrs.map (fun _ => ([] : List GoAttr)),
    data := none, selfClosing := false, isEndElement := false }

/-- `consumeNonTagIdentifier`: a span starting `<?` or `<!` becomes raw data
with `SelfClosing` set, and `nil` is handed on (so decomposition stops). -/
def consumeNonTagIdentifier (tk : GoToken) (b : List Byte) : GoToken × List Byte :=
  if b.length < 2 ∨ (b.take 2 ≠ [60, 63] ∧ b.take 2 ≠ [60, 33]) then (tk, b)
  else ({ tk with data := some b, selfClosing := true }, [])

/-- `consumeTagName`.  `none` models the Go panics: `b[0]` on an empty list
after dropping `<`, `b[pos]` with `pos = -1` when no name terminator exists,
and `b[pos-1]` with `pos = 0`. -/
def consumeTagName (tk : GoToken) (b : List Byte) : Option (GoToken × List Byte) :=
  let b := b.drop 1
  match b with
  | [] => none
  | b0 :: _ =>
    let (tk, b) :=
      if b0 = 47 then ({ tk with isEndElement := true }, b.drop 1) else (tk, b)
    match goFindIdx (fun c => c = 62 ∨ c = 32 ∨ c = 9 ∨ c = 13 ∨ c = 10) b with
    | none => none
    | some pos =>
      let pos? : Option Nat :=
        if byteAt b pos = 62 ∧ b.length > 1 then
          if pos = 0 then none
          else if byteAt b (pos - 1) = 47 then some (pos - 1) else some pos
        else some pos
      match pos? with
      | none => none
      | some pos =>
        let full := trim (b.take pos)
        let rest := b.drop pos
        let nm : GoName :=
          match goFindIdx (fun c => c = 58) full with
          | none => ⟨[], full, full⟩
          | some cp => ⟨full.take cp, full.drop (cp + 1), full⟩
        some ({ tk with name := nm }, rest)

/-- The attribute loop of `consumeAttrs`.  `none` models the Go panics (no
`=`/`>` ahead; missing opening or closing quote, which make the value slice
bounds invalid).  Each iteration strictly shrinks `b`, so fuel `len b + 1`
is never exhausted on terminating Go runs. -/
def caLoop (fuel : Nat) (tk : GoToken) (b : List Byte) : Option (GoToken × List Byte) :=
  match fuel with
  | 0 => none
  | fuel + 1 =>
    match goFindIdx (fun c => c = 61 ∨ c = 62) b with
    | none => none
    | some pos =>
      if byteAt b pos = 62 then
        let tk :=
          if pos > 0 ∧ byteAt b (pos - 1) = 47 then { tk with selfClosing := true } else tk
        some (tk, b.drop (pos + 1))
      else
        let full := trim (b.take pos)
        let b := b.drop (pos + 1)
        match goFindIdx (fun c => c = 34) b with
        | none => none
        | some p2 =>
          match goFindIdx (fun c => c = 34) (b.drop (p2 + 1)) with
          | none => none
          | some width =>
            let value := goSlice b (p2 + 1) (p2 + width + 1)
            let b := b.drop (p2 + width + 2)
            let nm : GoName :=
              match goFindIdx (fun c => c = 58) full with
              | none => ⟨[], full, full⟩
              | some cp => ⟨full.take cp, full.drop (cp + 1), full⟩
            caLoop fuel { tk with attrs := some ((tk.attrs.getD []) ++ [⟨nm, value⟩]) } b

/-- `consumeAttrs`. -/
def consumeAttrs (tk : GoToken) (b : List Byte) : Option (GoToken × List Byte) :=
  caLoop (b.length + 1) tk b

/-- `consumeCharData`: strip leading whitespace, then a CDATA opener, then a
CDATA closer, and store the trimmed remainder as the token's data. -/
def consumeCharData (tk : GoToken) (b : List Byte) : GoToken :=
  let b := trimLeading b
  let b := if b.length ≥ 9 ∧ b.take 9 = cdataOpen then b.drop 9 else b
  let b := if b.length ≥ 3 ∧ b.drop (b.length - 3) = cdataClose then b.take (b.length - 3) else b
  { tk with data := some (trim b) }

/-- The copy-and-nil step of `Token()` (lines 141-147): the returned token is
a copy of `t.token` whose empty `Attrs`/`Data` are replaced by nil.  (The
source applies the two replacements sequentially; as the first touches only
`Attrs` and the second only `Data`, the field-wise form is identical.) -/
def normalizeToken (tk : GoToken) : GoToken :=
  { tk with
      attrs := if (tk.attrs.getD []).length = 0 then none else tk.attrs
      data := if (tk.data.getD []).length = 0 then none else tk.data }

/-- Decomposition pipeline of `Token()` (lines 132-139 of the source),
acting on the shared token; `none` is a Go panic. -/
def decomposeToken (tk : GoToken) (b : List Byte) : Option GoToken :=
  let tk := clearToken tk
  let (tk, b) := consumeNonTagIdentifier tk b
  match b with
  | [] => some tk
  | _ :: _ =>
    match consumeTagName tk b with
    | none => none
    | some (tk, b) =>
      match consumeAttrs tk b with
      | none => none
      | some (tk, b) => some (consumeCharData tk b)

/-- `Token()`.  Sticky guard; then `RawToken`; non-`io.EOF` errors get the
byte-position wrapper; with no bytes, or on unexpected EOF, the (possibly
wrapped) error is returned with the zero token; otherwise the error, if any,
is stored as sticky state and the partial bytes are decomposed — with a nil
returned error.  The state keeps the decomposed (un-normalized) shared
token; the returned copy is normalized. -/
def goToken (t : Tokenizer) : TokResult :=
  match t.err with
  | some e => .ok zeroToken (some e) t
  | none =>
    match rawToken t with
    | .outOfFuel => .outOfFuel
    | .panicked => .panicked
    | .ok b err t =>
      match err with
      | some e =>
        if (b.getD []).length = 0 ∨ isUnexpEOFErr (if isEOFErr e then e else .bytePos t.n e) then
          .ok zeroToken (some (if isEOFErr e then e else .bytePos t.n e)) t
        else
          match decomposeToken t.token (b.getD []) with
          | none => .panicked
          | some tk =>
            .ok (normalizeToken tk) none
              { t with err := some (if isEOFErr e then e else .bytePos t.n e), token := tk }
      | none =>
        match decomposeToken t.token (b.getD []) with
        | none => .panicked
        | some tk => .ok (normalizeToken tk) none { t with token := tk }

/-- The token of a `Token()` call, if it returned one. -/
def tokOf : TokResult → Option GoToken
| .ok tok _ _ => some tok
| _ => none

/-- The error of a `Token()` call. -/
def errOfT : TokResult → Option GoErr
| .ok _ err _ => err
| _ => none

/-- The state after a `Token()` call (identity on the degenerate outcomes,
which never occur in the runs below). -/
def stepState (t : Tokenizer) : Tokenizer :=
  match goToken t with
  | .ok _ _ t2 => t2
  | _ => t

/-- The bytes of a `RawToken()` call. -/
def rawB : RawResult → Option (List Byte)
| .ok b _ _ => b
| _ => none

/-- The error of a `RawToken()` call. -/
def rawErr : RawResult → Option GoErr
| .ok _ e _ => e
| _ => none

/-- The state after a `RawToken()` call. -/
def rawStep (t : Tokenizer) : Tokenizer :=
  match rawToken t with
  | .ok _ _ t2 => t2
  | _ => t

/-- The input of the nested-DOCTYPE test fixture,
the 30 bytes of the literal `<!DOCTYPE [ <!-- <foo> --> ] >`. -/
def dtdInput : List Byte :=
  [60, 33, 68, 79, 67, 84, 89, 80, 69, 32, 91, 32, 60, 33, 45, 45, 32, 60,
   102, 111, 111, 62, 32, 45, 45, 62, 32, 93, 32, 62]

/-- The input of the quoted-`>` test fixture,
the 27 bytes of the literal `<sample path="foo>bar>baz">`. -/
def quotedGtInput : List Byte :=
  [60, 115, 97, 109, 112, 108, 101, 32, 112, 97, 116, 104, 61, 34, 102, 111,
   111, 62, 98, 97, 114, 62, 98, 97, 122, 34, 62]

/-- The input of the CDATA test fixture: the 52 bytes of
`<tag:name>` LF TAB `<![CDATA[Some text here.]]>` LF TAB `</tag:name>`. -/
def cdataInput : List Byte :=
  [60, 116, 97, 103, 58, 110, 97, 109, 101, 62, 10, 9,
   60, 33, 91, 67, 68, 65, 84, 65, 91,
   83, 111, 109, 101, 32, 116, 101, 120, 116, 32, 104, 101, 114, 101, 46,
   93, 93, 62, 10, 9,
   60, 47, 116, 97, 103, 58, 110, 97, 109, 101, 62]

/-- `Some text here.` -/
def someTextHere : List Byte :=
  [83, 111, 109, 101, 32, 116, 101, 120, 116, 32, 104, 101, 114, 101, 46]

/-- `tag:name` split into its parts. -/
def tagColonName : GoName := ⟨[116, 97, 103], [110, 97, 109, 101], [116, 97, 103, 58, 110, 97, 109, 101]⟩

/-- The bytes of `<ab/>`. -/
def abInput : List Byte := [60, 97, 98, 47, 62]

/-- The bytes of `<a/>`. -/
def aSelfInput : List Byte := [60, 97, 47, 62]

/-- A fresh tokenizer over the nested-DOCTYPE fixture, read buffer 30. -/
def dtdState : Tokenizer := mkTokenizer dtdInput [.withReadBufferSize 30]

/-- The input of the quoted-DOCTYPE fixture, the 14 bytes of the literal
`<!DOCTYPE ">">`. -/
def dtdQuotedInput : List Byte :=
  [60, 33, 68, 79, 67, 84, 89, 80, 69, 32, 34, 62, 34, 62]

/-- A fresh tokenizer over the quoted-DOCTYPE fixture, read buffer 14. -/
def dtdQuotedState : Tokenizer := mkTokenizer dtdQuotedInput [.withReadBufferSize 14]

/-- A fresh tokenizer over the quoted-`>` fixture, read buffer 27. -/
def quotedGtState : Tokenizer := mkTokenizer quotedGtInput [.withReadBufferSize 27]

/-- A fresh tokenizer over the CDATA fixture, read buffer 52. -/
def cdataState : Tokenizer := mkTokenizer cdataInput [.withReadBufferSize 52]

/-- A fresh tokenizer over `<ab/>` with read buffer 1 and max buffer limit 3. -/
def abState : Tokenizer :=
  mkTokenizer abInput [.withReadBufferSize 1, .withAutoGrowBufferMaxLimitSize 3]

/-- A fresh tokenizer over `<a/>` with read buffer `n`. -/
def aSelfState (n : Int) : Tokenizer := mkTokenizer aSelfInput [.withReadBufferSize n]

/-- A tokenizer state whose next grow needs a fresh allocation (2 bytes held,
capacity 2, read increment 1) past a max limit of 2. -/
def overLimitState : Tokenizer :=
  { src := [], n := 0, opts := ⟨1, 2, 16⟩, buf := [0, 0], bufCap := 2, cur := 0,
    err := none, token := ⟨⟨[], [], []⟩, some [], none, false, false⟩ }

/-- A tokenizer that has read a truncated stream ending in the open
construct `<!`: the source is exhausted and the buffer holds the two
initial zero bytes plus `<!`. -/
def partialState : Tokenizer :=
  { src := [], n := 2, opts := ⟨2, 1024000, 16⟩, buf := [0, 0, 60, 33],
    bufCap := 4098, cur := 0, err := none,
    token := ⟨⟨[], [], []⟩, some [], none, false, false⟩ }

/-- `sample` -/
def sampleName : List Byte := [115, 97, 109, 112, 108, 101]

/-- `path` -/
def pathName : List Byte := [112, 97, 116, 104]

/-- `foo>bar>baz` -/
def pathValue : List Byte := [102, 111, 111, 62, 98, 97, 114, 62, 98, 97, 122]

end XmlTokenizer

namespace XmlTokenizer

/-! ## Helper lemmas -/

/-- Both public entry points return the stored error unchanged, and touch
nothing, once `t.err` is set. -/
theorem sticky_guard (t : Tokenizer) (e : GoErr) (h : t.err = some e) :
    goToken t = .ok zeroToken (some e) t ∧ rawToken t = .ok none (some e) t := by
  constructor
  · simp [goToken, h]
  · simp [rawToken, h]

/-- `applyOpts` keeps all three option fields positive. -/
theorem applyOpts_pos (gs : List GoOpt) :
    ∀ o : OptionsI, 0 < o.readBufferSize → 0 < o.autoGrowBufferMaxLimitSize →
    0 < o.attrsBufferSize →
    0 < (applyOpts o gs).readBufferSize ∧
    0 < (applyOpts o gs).autoGrowBufferMaxLimitSize ∧
    0 < (applyOpts o gs).attrsBufferSize := by
  induction gs with
  | nil => intro o h1 h2 h3; exact ⟨h1, h2, h3⟩
  | cons g r ih =>
    intro o h1 h2 h3
    cases g with
    | withReadBufferSize s =>
      refine ih _ ?_ h2 h3
      by_cases hs : s ≤ 0 <;> simp [applyOpt, hs] <;> omega
    | withAutoGrowBufferMaxLimitSize s =>
      refine ih _ h1 ?_ h3
      by_cases hs : s ≤ 0 <;> simp [applyOpt, hs] <;> omega
    | withAttrBufferSize s =>
      refine ih _ h1 h2 ?_
      by_cases hs : s ≤ 0 <;> simp [applyOpt, hs] <;> omega

/-- Replacing an empty list option by `none` leaves only nil or non-empty. -/
theorem normAux {α : Type} (o : Option (List α)) :
    (if (o.getD []).length = 0 then (none : Option (List α)) else o) = none ∨
    ∃ a l, (if (o.getD []).length = 0 then (none : Option (List α)) else o) = some (a :: l) := by
  rcases o with _ | (_ | ⟨a, l⟩)
  · left; simp
  · left; simp
  · right; exact ⟨a, l, by simp⟩

/-- `normalizeToken` never yields an empty-but-non-nil `attrs` or `data`. -/
theorem normalizeToken_inv (tk : GoToken) :
    ((normalizeToken tk).attrs = none ∨ ∃ a l, (normalizeToken tk).attrs = some (a :: l)) ∧
    ((normalizeToken tk).data = none ∨ ∃ c l, (normalizeToken tk).data = some (c :: l)) :=
  ⟨normAux tk.attrs, normAux tk.data⟩

/-- Every error-return of the closing-`>` loop stores the returned error. -/
theorem rtFindEnd_err (fuel : Nat) : ∀ (t : Tokenizer) (pivot : Nat) (b : Option (List Byte))
    (e : GoErr) (t2 : Tokenizer), rtFindEnd fuel t pivot = .ok b (some e) t2 →
    t2.err = some e := by
  induction fuel with
  | zero => intro t pivot b e t2 h; simp [rtFindEnd] at h
  | succ fuel ih =>
    intro t pivot b e t2 h
    rw [rtFindEnd] at h
    rcases hf : findTokenEnd (2 * t.buf.length + 2) t.buf pivot (pivot + 1) with pos | _ | _ <;>
      simp only [hf] at h
    · by_cases hq : byteAt t.buf (pivot + 1) = 63 ∨ byteAt t.buf (pivot + 1) = 33
      · rw [if_pos hq, RawResult.ok.injEq] at h
        exact absurd h.2.1 (by simp)
      · rw [if_neg hq] at h
        rcases hp : parseCharData t pivot pos with _ | ⟨t3, p3, q3⟩ <;> simp only [hp] at h
        · exact absurd h (by simp)
        · rw [RawResult.ok.injEq] at h
          exact absurd h.2.1 (by simp)
    · rcases hg : (manageBuffer (memmoveRemainingBytes t pivot).1).2 with _ | e0 <;>
        simp only [hg] at h
      · exact ih _ _ _ _ _ h
      · rw [RawResult.ok.injEq] at h
        obtain ⟨h1, h2, h3⟩ := h
        rw [← h3]
        injection h2 with h2
        rw [← h2]
    · exact absurd h (by simp)

/-- Every error-return of the opening-`<` loop stores the returned error. -/
theorem rtFindOpen_err (fuel : Nat) : ∀ (t : Tokenizer) (b : Option (List Byte)) (e : GoErr)
    (t2 : Tokenizer), rtFindOpen fuel t = .ok b (some e) t2 → t2.err = some e := by
  induction fuel with
  | zero => intro t b e t2 h; simp [rtFindOpen] at h
  | succ fuel ih =>
    intro t b e t2 h
    rw [rtFindOpen] at h
    rcases hf : goFindIdx (fun c => c = 60) (t.buf.drop t.cur) with _ | p <;>
      simp only [hf] at h
    · rcases hg : (manageBuffer (memmoveRemainingBytes t t.cur).1).2 with _ | e0 <;>
        simp only [hg] at h
      · exact ih _ _ _ _ h
      · rw [RawResult.ok.injEq] at h
        obtain ⟨h1, h2, h3⟩ := h
        rw [← h3]
        injection h2 with h2
        rw [← h2]
    · exact rtFindEnd_err _ _ _ _ _ _ h

/-- Every error-return of `RawToken` stores the returned error. -/
theorem rawToken_err (t : Tokenizer) (b : Option (List Byte)) (e : GoErr) (t2 : Tokenizer)
    (h : rawToken t = .ok b (some e) t2) : t2.err = some e := by
  rw [rawToken] at h
  rcases h0 : t.err with _ | e0 <;> simp only [h0] at h
  · exact rtFindOpen_err _ _ _ _ _ h
  · rw [RawResult.ok.injEq] at h
    obtain ⟨h1, h2, h3⟩ := h
    rw [← h3, h0]
    injection h2 with h2
    rw [← h2]

/-- Scanning a run of zero bytes finds nothing the predicate rejects at 0. -/
theorem goFindIdx_replicate (p : Byte → Bool) (h : p 0 = false) (n : Nat) :
    goFindIdx p (List.replicate n 0) = none := by
  induction n with
  | zero => rfl
  | succ n ih => simp [List.replicate_succ, goFindIdx, h, ih]

/-- `dropWhile` drops exactly the `takeWhile` length. -/
theorem dropWhile_eq_drop_len (p : Byte → Bool) :
    ∀ l : List Byte, l.dropWhile p = l.drop (l.takeWhile p).length := by
  intro l
  induction l with
  | nil => rfl
  | cons c r ih =>
    by_cases hc : p c
    · simp [List.dropWhile_cons, List.takeWhile_cons, hc, ih]
    · simp [List.dropWhile_cons, List.takeWhile_cons, hc]

/-- On CR-free input, the `trimPrefix` walk counts the leading-whitespace
run. -/
theorem tpWalk_no13 : ∀ (l : List Byte) (s : Nat), (∀ c ∈ l, c ≠ 13) →
    tpWalk l s = s + (l.takeWhile wsb).length := by
  intro l
  induction l with
  | nil => intro s _; rfl
  | cons c r ih =>
    intro s h
    rw [tpWalk, if_neg (h c (by simp))]
    have hiff : (c = 10 ∨ c = 32 ∨ c = 9) ↔ wsb c = true := by
      simp [wsb, or_assoc]
    by_cases hw : c = 10 ∨ c = 32 ∨ c = 9
    · rw [if_pos hw, ih (s + 1) (fun x hx => h x (by simp [hx]))]
      rw [List.takeWhile_cons, hiff.mp hw, if_pos rfl, List.length_cons]
      omega
    · rw [if_neg hw]
      have hc : wsb c = false := by
        rcases hb : wsb c with _ | _
        · rfl
        · exact absurd (hiff.mpr hb) hw
      rw [List.takeWhile_cons, hc]
      simp

/-- On CR-free input, `trimPrefix` is the plain left trim. -/
theorem trimLeading_no13 (l : List Byte) (h : ∀ c ∈ l, c ≠ 13) :
    trimLeading l = ldw l := by
  rw [trimLeading, tpWalk_no13 l 0 h, ldw, dropWhile_eq_drop_len]
  simp

/-- On CR-free input, the `trimSuffix` walk counts the whitespace run of
its (reversed) argument. -/
theorem tsWalk_no13 : ∀ (l : List Byte) (e : Nat), (∀ c ∈ l, c ≠ 13) →
    tsWalk l e = e - (l.takeWhile wsb).length := by
  intro l
  induction l with
  | nil => intro e _; rfl
  | cons c r ih =>
    intro e h
    rw [tsWalk]
    by_cases h10 : c = 10
    · rw [if_pos h10]
      have hh : ¬(r.head? = some 13) := by
        rcases r with _ | ⟨d, r2⟩
        · simp
        · have : d ≠ 13 := h d (by simp)
          simp [this]
      rw [if_neg hh, ih (e - 1) (fun x hx => h x (by simp [hx]))]
      rw [List.takeWhile_cons, show wsb c = true by simp [wsb, h10], if_pos rfl,
        List.length_cons]
      omega
    · rw [if_neg h10]
      by_cases hw : c = 32 ∨ c = 9
      · rw [if_pos hw, ih (e - 1) (fun x hx => h x (by simp [hx]))]
        have hc : wsb c = true := by rcases hw with h1 | h1 <;> simp [wsb, h1]
        rw [List.takeWhile_cons, hc, if_pos rfl, List.length_cons]
        omega
      · rw [if_neg hw]
        have hc : wsb c = false := by
          rcases hb : wsb c with _ | _
          · rfl
          · have : c = 10 ∨ c = 32 ∨ c = 9 := by
              have hb2 := hb
              simp [wsb] at hb2
              tauto
            rcases this with h1 | h1
            · exact absurd h1 h10
            · exact absurd h1 hw
        rw [List.takeWhile_cons, hc]
        simp

/-- On CR-free input, `trimSuffix` is the plain right trim. -/
theorem trimTrailing_no13 (l : List Byte) (h : ∀ c ∈ l, c ≠ 13) :
    trimTrailing l = rdw l := by
  rw [trimTrailing, tsWalk_no13 l.reverse l.length (fun c hc => h c (by simpa using hc)),
    rdw, dropWhile_eq_drop_len, List.drop_reverse]
  rw [List.reverse_reverse]

/-- On CR-free input, `trim` is right trim after left trim. -/
theorem trim_no13 (l : List Byte) (h : ∀ c ∈ l, c ≠ 13) :
    trim l = rdw (ldw l) := by
  rw [trim, trimLeading_no13 l h, trimTrailing_no13]
  intro c hc
  exact h c (List.dropWhile_sublist wsb |>.mem hc)

/-- Dropping a whitespace prefix twice is dropping it once. -/
theorem dropWhile_dropWhile (p : Byte → Bool) (l : List Byte) :
    (l.dropWhile p).dropWhile p = l.dropWhile p := by
  induction l with
  | nil => rfl
  | cons c r ih =>
    by_cases hc : p c
    · simp [List.dropWhile_cons, hc, ih]
    · simp [List.dropWhile_cons, hc]

/-- Right trim of a cons: the head survives unless everything after it is
whitespace and the head is whitespace too. -/
theorem rdw_cons (c : Byte) (r : List Byte) :
    rdw (c :: r) = if (r.reverse.dropWhile wsb).isEmpty then
      (if wsb c then [] else [c]) else c :: rdw r := by
  rw [rdw, List.reverse_cons, List.dropWhile_append]
  by_cases he : (r.reverse.dropWhile wsb).isEmpty
  · rw [if_pos he, if_pos he]
    by_cases hc : wsb c
    · simp [List.dropWhile_cons, hc]
    · simp [List.dropWhile_cons, hc]
  · rw [if_neg he, if_neg he]
    simp [rdw]

/-- Left trim is idempotent. -/
theorem ldw_idem (l : List Byte) : ldw (ldw l) = ldw l := dropWhile_dropWhile wsb l

/-- Right trim is idempotent. -/
theorem rdw_idem (l : List Byte) : rdw (rdw l) = rdw l := by
  rw [rdw, rdw, List.reverse_reverse, dropWhile_dropWhile]

/-- A fully-trimmed list has no leading whitespace left. -/
theorem ldw_rdw_ldw (l : List Byte) : ldw (rdw (ldw l)) = rdw (ldw l) := by
  rcases hl : ldw l with _ | ⟨c, r⟩
  · rfl
  · have hc : wsb c = false := by
      have := List.head?_dropWhile_not wsb l
      rw [show l.dropWhile wsb = ldw l from rfl, hl] at this
      simpa using this
    rw [rdw_cons]
    by_cases he : (r.reverse.dropWhile wsb).isEmpty
    · rw [if_pos he, if_neg (by simp [hc])]
      simp [ldw, List.dropWhile_cons, hc]
    · rw [if_neg he]
      simp [ldw, List.dropWhile_cons, hc]

/-- `trim` keeps only bytes of its argument. -/
theorem mem_trim (l : List Byte) (c : Byte) (h : c ∈ trim l) : c ∈ l := by
  rw [trim, trimTrailing] at h
  have h1 := List.mem_of_mem_take h
  rw [trimLeading] at h1
  exact List.mem_of_mem_drop h1

/-- On CR-free input `trim` is idempotent. -/
theorem trim_trim (l : List Byte) (h13 : ∀ c ∈ l, c ≠ 13) :
    trim (trim l) = trim l := by
  have h13t : ∀ c ∈ trim l, c ≠ 13 := fun c hc => h13 c (mem_trim l c hc)
  rw [trim_no13 (trim l) h13t, trim_no13 l h13, ldw_rdw_ldw, rdw_idem]

/-- Counting distributes over append. -/
theorem countByte_append (x : Byte) (l1 l2 : List Byte) :
    countByte x (l1 ++ l2) = countByte x l1 + countByte x l2 := by
  induction l1 with
  | nil => simp [countByte]
  | cons c r ih =>
    show (if c = x then 1 else 0) + countByte x (r ++ l2) =
      (if c = x then 1 else 0) + countByte x r + countByte x l2
    rw [ih]
    omega

/-- A count over a longer front segment splits at any interior point. -/
theorem countByte_take_add (x : Byte) (l : List Byte) (a c : Nat) (h : a ≤ c) :
    countByte x (l.take c) = countByte x (l.take a) + countByte x (goSlice l a c) := by
  conv_lhs => rw [← List.take_append_drop a (l.take c)]
  rw [countByte_append, List.take_take, min_eq_left h]
  rfl

/-- A slice starting at `a` of width `m` is a take of the drop. -/
theorem goSlice_add (l : List Byte) (a m : Nat) : goSlice l a (a + m) = (l.drop a).take m := by
  simp only [goSlice, List.drop_take, Nat.add_sub_cancel_left]

/-- Up to and including its first hit, `goFindIdx` has seen exactly one
occurrence of the byte. -/
theorem goFindIdx_count_one (x : Byte) : ∀ (l : List Byte) (k : Nat),
    goFindIdx (fun c => decide (c = x)) l = some k → countByte x (l.take (k + 1)) = 1 := by
  intro l
  induction l with
  | nil => intro k h; simp [goFindIdx] at h
  | cons c r ih =>
    intro k h
    rw [goFindIdx] at h
    by_cases hc : c = x
    · rw [if_pos (by simp [hc])] at h
      injection h with h
      subst h
      simp [countByte, hc]
    · rw [if_neg (by simp [hc])] at h
      rcases hg : goFindIdx (fun c => decide (c = x)) r with _ | k2 <;> rw [hg] at h
      · simp at h
      · have hk : k = k2 + 1 := by simpa using h.symm
        subst hk
        rw [List.take_succ_cons]
        show (if c = x then 1 else 0) + countByte x (r.take (k2 + 1)) = 1
        rw [ih k2 hg, if_neg hc]

/-! ## C1 -/

/-- C10: each of `WithReadBufferSize`, `WithAutoGrowBufferMaxLimitSize` and
`WithAttrBufferSize` silently substitutes the package default (4096, 1024000
and 16 respectively) for any size `≤ 0`, and consequently a tokenizer
configured through any list of these options always has strictly positive
read buffer size, buffer ceiling and attribute capacity. -/
theorem c10_option_defaults :
    (∀ s : Int, s ≤ 0 → ∀ o : OptionsI,
      applyOpt o (.withReadBufferSize s) = { o with readBufferSize := 4096 } ∧
      applyOpt o (.withAutoGrowBufferMaxLimitSize s) =
        { o with autoGrowBufferMaxLimitSize := 1024000 } ∧
      applyOpt o (.withAttrBufferSize s) = { o with attrsBufferSize := 16 }) ∧
    (∀ gs : List GoOpt,
      0 < (applyOpts defaultOptionsI gs).readBufferSize ∧
      0 < (applyOpts defaultOptionsI gs).autoGrowBufferMaxLimitSize ∧
      0 < (applyOpts defaultOptionsI gs).attrsBufferSize) := by
  constructor
  · intro s hs o
    refine ⟨?_, ?_, ?_⟩ <;> simp [applyOpt, hs]
  · intro gs
    exact applyOpts_pos gs defaultOptionsI (by decide) (by decide) (by decide)

/-- C10 witness: the general theorem applied to concrete non-positive sizes
and a concrete option list. -/
theorem c10_option_defaults_witness :
    applyOpt defaultOptionsI (.withReadBufferSize 0) =
      { defaultOptionsI with readBufferSize := 4096 } ∧
    applyOpt defaultOptionsI (.withAutoGrowBufferMaxLimitSize (-7)) =
      { defaultOptionsI with autoGrowBufferMaxLimitSize := 1024000 } ∧
    0 < (applyOpts defaultOptionsI
          [.withReadBufferSize (-5), .withAttrBufferSize 0]).readBufferSize :=
  ⟨(c10_option_defaults.1 0 (by decide) defaultOptionsI).1,
   (c10_option_defaults.1 (-7) (by decide) defaultOptionsI).2.1,
   (c10_option_defaults.2 [.withReadBufferSize (-5), .withAttrBufferSize 0]).1⟩

/-! ## C3 -/

/-- C3 (refuted by a panic): the claim says every construct starting `<?`
or `<!` — explicitly including DOCTYPE declarations with quoted literals —
is returned by `Token` as one token carrying the full raw construct bytes.
On the benign fixture `<!DOCTYPE [ <!-- <foo> --> ] >` that is what happens
(first conjunct: one token with empty name, no attributes, `self_closing`
set, `data` the whole construct, then plain end of stream).  But on
`<!DOCTYPE ">">` the program crashes instead of returning a token: after
the quote-skip lands the scan point on the final `>`, `findTokenEnd`
evaluates the nested-construct slice `t.buf[left+1 : right-1]` with
`left+1 > right-1`, a slice-bounds-out-of-range runtime panic (second
conjunct). -/
theorem c3_nontag_construct :
    (tokOf (goToken dtdState) = some ⟨⟨[], [], []⟩, none, some dtdInput, true, false⟩ ∧
     errOfT (goToken dtdState) = none ∧
     errOfT (goToken (stepState dtdState)) = some .eof) ∧
    goToken dtdQuotedState = .panicked := by
  refine ⟨⟨by decide, by decide, by decide⟩, by decide⟩

/-! ## C6 -/

/-- C6: on `<tag:name>`, whitespace, `<![CDATA[Some text here.]]>`,
whitespace, `</tag:name>`, the first `Token` call returns a leaf token with
`name.prefix = "tag"`, `name.local = "name"` (split around the first `:`)
and `data = "Some text here."` — CDATA markers and surrounding whitespace
stripped — and the second call returns a separate end-element token with the
same name; the stream then ends. -/
theorem c6_cdata_leaf :
    tokOf (goToken cdataState) = some ⟨tagColonName, none, some someTextHere, false, false⟩ ∧
    errOfT (goToken cdataState) = none ∧
    tokOf (goToken (stepState cdataState)) = some ⟨tagColonName, none, none, false, true⟩ ∧
    errOfT (goToken (stepState cdataState)) = none ∧
    errOfT (goToken (stepState (stepState cdataState))) = some .eof := by
  refine ⟨by decide, by decide, by decide, by decide, by decide⟩

/-! ## C4 -/

/-- C4: errors are sticky.  First conjunct: once an error is stored, both
`Token` and `RawToken` return exactly that stored error, with the zero
token/nil bytes, leaving the whole state (including the unread source)
untouched — so no further reads and no panic are possible.  Second conjunct:
whenever `RawToken` returns an error it has stored that very error.  Third
conjunct: whenever `Token` returns an error the sticky field is set
afterwards, so subsequent calls keep returning a stored error.  Plain
end-of-stream is the stored error `eof`, covered by the first conjunct:
repeated calls keep returning it. -/
theorem c4_sticky_errors :
    (∀ (t : Tokenizer) (e : GoErr), t.err = some e →
      goToken t = .ok zeroToken (some e) t ∧ rawToken t = .ok none (some e) t) ∧
    (∀ (t : Tokenizer) (b : Option (List Byte)) (e : GoErr) (t2 : Tokenizer),
      rawToken t = .ok b (some e) t2 → t2.err = some e) ∧
    (∀ (t : Tokenizer) (tok : GoToken) (e : GoErr) (t2 : Tokenizer),
      goToken t = .ok tok (some e) t2 → t2.err.isSome) := by
  refine ⟨sticky_guard, rawToken_err, ?_⟩
  intro t tok e t2 h
  rw [goToken] at h
  rcases h0 : t.err with _ | e0 <;> simp only [h0] at h
  · rcases hr : rawToken t with ⟨b3, err3, t3⟩ | _ | _ <;> simp only [hr] at h
    · rcases err3 with _ | e0' <;> simp only at h
      · rcases hd : decomposeToken t3.token (b3.getD []) with _ | tk <;> simp only [hd] at h
        · exact absurd h (by simp)
        · rw [TokResult.ok.injEq] at h
          exact absurd h.2.1 (by simp)
      · have ht3 : t3.err = some e0' := rawToken_err _ _ _ _ hr
        split at h <;> split at h <;>
          first
          | (rw [TokResult.ok.injEq] at h
             obtain ⟨-, -, h3⟩ := h
             rw [← h3, ht3]
             rfl)
          | (rcases hd : decomposeToken t3.token (b3.getD []) with _ | tk <;> simp only [hd] at h
             · exact absurd h (by simp)
             · rw [TokResult.ok.injEq] at h
               obtain ⟨-, -, h3⟩ := h
               rw [← h3]
               rfl)
    · exact absurd h (by simp)
    · exact absurd h (by simp)
  · rw [TokResult.ok.injEq] at h
    obtain ⟨-, -, h3⟩ := h
    rw [← h3, h0]
    rfl

/-- C4 witness: the state after consuming the DOCTYPE fixture and hitting
end of stream has `eof` stored, and the theorem applied there shows the next
call returns exactly that stored error with an unchanged state. -/
theorem c4_sticky_errors_witness :
    goToken (stepState (stepState dtdState)) =
      .ok zeroToken (some .eof) (stepState (stepState dtdState)) ∧
    rawToken (stepState (stepState dtdState)) =
      .ok none (some .eof) (stepState (stepState dtdState)) :=
  c4_sticky_errors.1 (stepState (stepState dtdState)) .eof (by decide)

/-! ## C9 -/

/-- C9: every token returned by `Token` with a nil error has `Attrs = nil`
whenever it has zero attributes and `Data = nil` whenever its character data
is empty; an empty-but-non-nil attribute list or data slice is never
observable. -/
theorem c9_nil_normalization :
    ∀ (t : Tokenizer) (tok : GoToken) (t2 : Tokenizer),
      goToken t = .ok tok none t2 →
      (tok.attrs = none ∨ ∃ a l, tok.attrs = some (a :: l)) ∧
      (tok.data = none ∨ ∃ c l, tok.data = some (c :: l)) := by
  intro t tok t2 h
  rw [goToken] at h
  rcases h0 : t.err with _ | e0 <;> simp only [h0] at h
  · rcases hr : rawToken t with ⟨b3, err3, t3⟩ | _ | _ <;> simp only [hr] at h
    · rcases err3 with _ | e0' <;> simp only at h
      · rcases hd : decomposeToken t3.token (b3.getD []) with _ | tk <;> simp only [hd] at h
        · exact absurd h (by simp)
        · rw [TokResult.ok.injEq] at h
          obtain ⟨h1, -, -⟩ := h
          rw [← h1]
          exact normalizeToken_inv tk
      · split at h <;> split at h <;>
          first
          | (rw [TokResult.ok.injEq] at h
             exact absurd h.2.1 (by simp))
          | (rcases hd : decomposeToken t3.token (b3.getD []) with _ | tk <;> simp only [hd] at h
             · exact absurd h (by simp)
             · rw [TokResult.ok.injEq] at h
               obtain ⟨h1, -, -⟩ := h
               rw [← h1]
               exact normalizeToken_inv tk)
    · exact absurd h (by simp)
    · exact absurd h (by simp)
  · rw [TokResult.ok.injEq] at h
    exact absurd h.2.1 (by simp)

/-! ## C7 -/

/-- C7: the token sequence is not independent of the configured read buffer
size, and the dependence contradicts the code's own intent (`Reset` raises
the buffer ceiling to the read buffer size precisely so that large read
buffers work).  First conjunct: for every read buffer size above 512000, the
very first `Token` call on the 4-byte input `<a/>` fails with the wrapped
BufferLimitExceeded error before consuming any input, because the first
refill doubles the initial buffer past the ceiling.  Second conjunct: with
read buffer size 1 the same input yields the `<a/>` token and then plain end
of stream. -/
theorem c7_buffer_size_dependence :
    (∀ n : Nat, 512000 < n →
      errOfT (goToken (aSelfState (n : Int))) =
        some (.bytePos 0 (.couldNotGrow ((n + n : Nat) : Int)
          (max 1024000 (n : Int)) .autoGrowExceeded)) ∧
      tokOf (goToken (aSelfState (n : Int))) = some zeroToken) ∧
    (tokOf (goToken (aSelfState 1)) = some ⟨⟨[], [97], [97]⟩, none, none, true, false⟩ ∧
     errOfT (goToken (aSelfState 1)) = none ∧
     errOfT (goToken (stepState (aSelfState 1))) = some .eof) := by
  constructor
  · intro n hn
    have hn0 : ¬((n : Int) ≤ 0) := by omega
    have hstate : aSelfState (n : Int) =
        { src := aSelfInput, n := 0,
          opts := ⟨(n : Int), max 1024000 (n : Int), 16⟩,
          buf := List.replicate n 0, bufCap := n + 4096, cur := 0, err := none,
          token := ⟨⟨[], [], []⟩, some [], none, false, false⟩ } := by
      rw [aSelfState, mkTokenizer]
      simp only [applyOpts, applyOpt, defaultOptionsI, if_neg hn0]
      by_cases hbig : (1024000 : Int) < (n : Int)
      · rw [if_pos (by exact hbig)]
        simp [max_eq_right (le_of_lt hbig)]
      · rw [if_neg (by exact hbig)]
        simp [max_eq_left (not_lt.mp hbig)]
    have hbuf : (aSelfState (n : Int)).buf = List.replicate n 0 := by rw [hstate]
    have hcur : (aSelfState (n : Int)).cur = 0 := by rw [hstate]
    have hsrc2 : (aSelfState (n : Int)).src = aSelfInput := by rw [hstate]
    have herr : (aSelfState (n : Int)).err = none := by rw [hstate]
    have hcap : (aSelfState (n : Int)).bufCap = n + 4096 := by rw [hstate]
    have hopts : (aSelfState (n : Int)).opts = ⟨(n : Int), max 1024000 (n : Int), 16⟩ := by
      rw [hstate]
    have hmg : manageBuffer (aSelfState (n : Int)) =
        (aSelfState (n : Int), some (.couldNotGrow ((n + n : Nat) : Int)
          (max 1024000 (n : Int)) .autoGrowExceeded)) := by
      simp only [manageBuffer, hbuf, hopts, hcap, List.length_replicate, Int.toNat_natCast]
      rw [if_neg (by omega), if_pos (by refine max_lt ?_ ?_ <;> push_cast <;> omega)]
    have hmm1 : (memmoveRemainingBytes (aSelfState (n : Int))
        ((aSelfState (n : Int)).cur)).1 = aSelfState (n : Int) := by
      simp [memmoveRemainingBytes, hcur]
    have hfind2 : goFindIdx (fun c => decide (c = 60))
        ((aSelfState (n : Int)).buf.drop ((aSelfState (n : Int)).cur)) = none := by
      rw [hbuf, hcur, List.drop_zero]
      exact goFindIdx_replicate _ (by decide) n
    have h6 : aSelfInput.length + 2 = 5 + 1 := by decide
    have hopen : rtFindOpen (aSelfInput.length + 2) (aSelfState (n : Int)) =
        .ok none (some (.couldNotGrow ((n + n : Nat) : Int)
            (max 1024000 (n : Int)) .autoGrowExceeded))
          { aSelfState (n : Int) with err := some (.couldNotGrow ((n + n : Nat) : Int)
            (max 1024000 (n : Int)) .autoGrowExceeded) } := by
      rw [h6, rtFindOpen]
      simp only [hfind2, hmm1, hmg]
    have hraw : rawToken (aSelfState (n : Int)) =
        .ok none (some (.couldNotGrow ((n + n : Nat) : Int)
            (max 1024000 (n : Int)) .autoGrowExceeded))
          { aSelfState (n : Int) with err := some (.couldNotGrow ((n + n : Nat) : Int)
            (max 1024000 (n : Int)) .autoGrowExceeded) } := by
      rw [rawToken]
      simp only [herr, hsrc2]
      exact hopen
    constructor
    · rw [goToken]
      simp only [herr, hraw]
      simp [errOfT, isEOFErr, hstate]
    · rw [goToken]
      simp only [herr, hraw]
      simp [tokOf, isEOFErr, hstate]
  · refine ⟨by decide, by decide, by decide⟩

/-- C7 witness: the failing-size conjunct applied at read buffer size
600000. -/
theorem c7_buffer_size_dependence_witness :
    errOfT (goToken (aSelfState ((600000 : Nat) : Int))) =
      some (.bytePos 0 (.couldNotGrow (((600000 + 600000 : Nat)) : Int)
        (max 1024000 ((600000 : Nat) : Int)) .autoGrowExceeded)) :=
  (c7_buffer_size_dependence.1 600000 (by decide)).1

/-! ## C8 -/

/-- C8: when the stream ends while a construct is open — a `<` has been
found at `cur + p` but `findTokenEnd` cannot locate its terminating `>` and
no further byte can be read — `RawToken` returns `io.ErrUnexpectedEOF`
rather than plain end of stream, and alongside it the best-effort partial
bytes scanned so far (everything from the `<` to the end of the buffer); the
error is also stored.  The capacity hypothesis only rules out the distinct
BufferLimitExceeded failure. -/
theorem c8_unexpected_eof_partial :
    ∀ (t : Tokenizer) (p : Nat), t.err = none →
      goFindIdx (fun c => decide (c = 60)) (t.buf.drop t.cur) = some p →
      findTokenEnd (2 * t.buf.length + 2) t.buf (t.cur + p) (t.cur + p + 1) = .more →
      t.src = [] →
      (t.buf.length - (t.cur + p) + t.opts.readBufferSize.toNat ≤ t.bufCap ∨
        ((t.buf.length - (t.cur + p) + t.opts.readBufferSize.toNat : Nat) : Int) ≤
          t.opts.autoGrowBufferMaxLimitSize) →
      ∃ t2 : Tokenizer,
        rawToken t = .ok (some (t.buf.drop (t.cur + p))) (some .unexpectedEOF) t2 ∧
        t2.err = some .unexpectedEOF := by
  intro t p h0 h1 h2 h3 h4
  have hfuel : t.src.length + 2 = 1 + 1 := by simp [h3]
  have hMbuf : (memmoveRemainingBytes t (t.cur + p)).1.buf = t.buf.drop (t.cur + p) := by
    by_cases hp0 : t.cur + p = 0 <;> simp [memmoveRemainingBytes, hp0]
  have hMsrc : (memmoveRemainingBytes t (t.cur + p)).1.src = [] := by
    by_cases hp0 : t.cur + p = 0 <;> simp [memmoveRemainingBytes, hp0, h3]
  have hMopts : (memmoveRemainingBytes t (t.cur + p)).1.opts = t.opts := by
    by_cases hp0 : t.cur + p = 0 <;> simp [memmoveRemainingBytes, hp0]
  have hMcap : (memmoveRemainingBytes t (t.cur + p)).1.bufCap = t.bufCap := by
    by_cases hp0 : t.cur + p = 0 <;> simp [memmoveRemainingBytes, hp0]
  have hMslice : goSlice (memmoveRemainingBytes t (t.cur + p)).1.buf
      (memmoveRemainingBytes t (t.cur + p)).2.1 (memmoveRemainingBytes t (t.cur + p)).2.2 =
      t.buf.drop (t.cur + p) := by
    by_cases hp0 : t.cur + p = 0
    · have hc0 : t.cur = 0 := by omega
      have hpp : p = 0 := by omega
      simp [memmoveRemainingBytes, hp0, hc0, hpp, goSlice, List.take_length]
    · simp [memmoveRemainingBytes, hp0, goSlice, List.take_length]
  have hgs : (memmoveRemainingBytes t (t.cur + p)).1.buf.length +
      (memmoveRemainingBytes t (t.cur + p)).1.opts.readBufferSize.toNat =
      t.buf.length - (t.cur + p) + t.opts.readBufferSize.toNat := by
    rw [hMbuf, hMopts, List.length_drop]
  have hmb2 : (manageBuffer (memmoveRemainingBytes t (t.cur + p)).1).2 = some .eof ∧
      (manageBuffer (memmoveRemainingBytes t (t.cur + p)).1).1.buf =
        (memmoveRemainingBytes t (t.cur + p)).1.buf := by
    by_cases hc : (memmoveRemainingBytes t (t.cur + p)).1.buf.length +
        (memmoveRemainingBytes t (t.cur + p)).1.opts.readBufferSize.toNat ≤
        (memmoveRemainingBytes t (t.cur + p)).1.bufCap
    · rw [manageBuffer, if_pos hc]
      simp [readAtLeast, hMsrc]
    · have h4r : ((t.buf.length - (t.cur + p) + t.opts.readBufferSize.toNat : Nat) : Int) ≤
          t.opts.autoGrowBufferMaxLimitSize := by
        rcases h4 with h4l | h4r
        · rw [hgs, hMcap] at hc
          exact absurd h4l hc
        · exact h4r
      rw [manageBuffer, if_neg hc, if_neg (by rw [hgs, hMopts]; exact_mod_cast not_lt.mpr h4r)]
      simp [readAtLeast, hMsrc]
  refine ⟨{ (manageBuffer (memmoveRemainingBytes t (t.cur + p)).1).1 with
            err := some .unexpectedEOF }, ?_, rfl⟩
  rw [rawToken]
  simp only [h0, hfuel]
  rw [rtFindOpen]
  simp only [h1]
  have hfuel2 : t.src.length + 2 = 1 + 1 := hfuel
  rw [hfuel2, rtFindEnd]
  simp only [h2, hmb2.1]
  rw [hmb2.2, hMslice]
  simp [isEOFErr]

/-! ## C2 -/

/-- The quote-parity invariant of `findTokenEnd` for ordinary tags: any
accepted terminator `right` has an even number of `"` bytes between the
byte after the `<` and the terminator. -/
theorem findTokenEnd_quote_parity :
    ∀ (fuel : Nat) (buf : List Byte) (pivot left right : Nat),
      byteAt buf (pivot + 1) ≠ 63 → byteAt buf (pivot + 1) ≠ 33 →
      pivot + 1 ≤ left →
      countByte 34 (goSlice buf (pivot + 1) left) % 2 = 0 →
      findTokenEnd fuel buf pivot left = .found right →
      countByte 34 (goSlice buf (pivot + 1) right) % 2 = 0 := by
  intro fuel
  induction fuel with
  | zero => intro buf pivot left right _ _ _ _ h; simp [findTokenEnd] at h
  | succ fuel ih =>
    intro buf pivot left right h63 h33 hple hinv h
    rw [findTokenEnd] at h
    rcases hfi : goFindIdx (fun c => decide (c = 62)) (buf.drop left) with _ | p <;>
      simp only [hfi] at h
    · exact absurd h (by simp)
    · rw [if_neg h63, if_neg h33] at h
      have e1 : countByte 34 (buf.take left) =
          countByte 34 (buf.take (pivot + 1)) +
          countByte 34 (goSlice buf (pivot + 1) left) :=
        countByte_take_add 34 buf (pivot + 1) left hple
      have e2 : countByte 34 (buf.take (left + p + 1)) =
          countByte 34 (buf.take left) + countByte 34 (goSlice buf left (left + p + 1)) :=
        countByte_take_add 34 buf left (left + p + 1) (by omega)
      have e3 : countByte 34 (buf.take (left + p + 1)) =
          countByte 34 (buf.take (pivot + 1)) +
          countByte 34 (goSlice buf (pivot + 1) (left + p + 1)) :=
        countByte_take_add 34 buf (pivot + 1) (left + p + 1) (by omega)
      by_cases hcnt : countByte 34 (goSlice buf left (left + p + 1)) % 2 = 0
      · rw [if_pos hcnt] at h
        injection h with h
        subst h
        omega
      · rw [if_neg hcnt] at h
        rcases hq : goFindIdx (fun c => decide (c = 34)) (buf.drop (left + p + 1)) with _ | p3 <;>
          simp only [hq] at h
        · exact absurd h (by simp)
        · have hone : countByte 34 (goSlice buf (left + p + 1) (left + p + 1 + (p3 + 1))) = 1 := by
            rw [goSlice_add]
            exact goFindIdx_count_one 34 _ p3 hq
          have e4 : countByte 34 (buf.take (left + p + 1 + (p3 + 1))) =
              countByte 34 (buf.take (left + p + 1)) +
              countByte 34 (goSlice buf (left + p + 1) (left + p + 1 + (p3 + 1))) :=
            countByte_take_add 34 buf (left + p + 1) (left + p + 1 + (p3 + 1)) (by omega)
          have e5 : countByte 34 (buf.take (left + p + 1 + (p3 + 1))) =
              countByte 34 (buf.take (pivot + 1)) +
              countByte 34 (goSlice buf (pivot + 1) (left + p + 1 + (p3 + 1))) :=
            countByte_take_add 34 buf (pivot + 1) (left + p + 1 + (p3 + 1)) (by omega)
          have h' : findTokenEnd fuel buf pivot (left + p + 1 + (p3 + 1)) = .found right := by
            rw [show left + p + 1 + (p3 + 1) = left + p + 1 + p3 + 1 by omega]
            exact h
          exact ih buf pivot (left + p + 1 + (p3 + 1)) right h63 h33 (by omega) (by omega) h'

/-- C2: a literal `>` inside a double-quoted attribute value does not
terminate the tag.  First conjunct: on `<sample path="foo>bar>baz">`,
`RawToken` returns the whole 27-byte tag as one span and `Token` returns one
token whose attribute list holds `path` with the value `foo>bar>baz`
intact.  Second conjunct: for an ordinary tag (the byte after `<` is
neither `?` nor `!`), `findTokenEnd` accepts a `>` as terminator only when
the number of `"` bytes scanned since the byte after the `<` is even. -/
theorem c2_quote_aware_boundary :
    (rawB (rawToken quotedGtState) = some quotedGtInput ∧
     rawErr (rawToken quotedGtState) = none ∧
     tokOf (goToken quotedGtState) =
       some ⟨⟨[], sampleName, sampleName⟩,
             some [⟨⟨[], pathName, pathName⟩, pathValue⟩], none, false, false⟩ ∧
     errOfT (goToken quotedGtState) = none) ∧
    (∀ (fuel : Nat) (buf : List Byte) (pivot right : Nat),
      byteAt buf (pivot + 1) ≠ 63 → byteAt buf (pivot + 1) ≠ 33 →
      findTokenEnd fuel buf pivot (pivot + 1) = .found right →
      countByte 34 (goSlice buf (pivot + 1) right) % 2 = 0) := by
  constructor
  · refine ⟨by decide, by decide, by decide, by decide⟩
  · intro fuel buf pivot right h63 h33 h
    refine findTokenEnd_quote_parity fuel buf pivot (pivot + 1) right h63 h33 le_rfl ?_ h
    simp [goSlice, List.drop_take, countByte, Nat.sub_self]

/-- C2 witness: the parity conjunct applied to the quoted-`>` fixture
buffer, whose token end is computed concretely. -/
theorem c2_quote_aware_boundary_witness :
    countByte 34 (goSlice quotedGtInput 1 27) % 2 = 0 :=
  c2_quote_aware_boundary.2 56 quotedGtInput 0 27 (by decide) (by decide) (by decide)

/-! ## C8 witness -/

/-- C8 witness: the theorem applied to the truncated-`<!` state. -/
theorem c8_unexpected_eof_partial_witness :
    ∃ t2 : Tokenizer,
      rawToken partialState =
        .ok (some (partialState.buf.drop (partialState.cur + 2)))
          (some .unexpectedEOF) t2 ∧
      t2.err = some .unexpectedEOF :=
  c8_unexpected_eof_partial partialState 2 (by decide) (by decide) (by decide) (by decide)
    (Or.inl (by decide))

/-! ## C5 -/

/-- C5 counterexample: the claim — a token requiring the buffer to grow
beyond the configured maximum buffer size fails with BufferLimitExceeded —
is false.  With read buffer size 1 and maximum buffer size 3, the single
token `<ab/>` requires the buffer to grow to 5 bytes (beyond the maximum of
3), yet `Token` succeeds with a nil error and the full untruncated token,
because growth that fits inside the pre-allocated spare capacity
(`size + 4096`) skips the limit check; the following call reports plain end
of stream, not BufferLimitExceeded. -/
theorem c5_buffer_limit_counterexample :
    errOfT (goToken abState) = none ∧
    tokOf (goToken abState) = some ⟨⟨[], [97, 98], [97, 98]⟩, none, none, true, false⟩ ∧
    (stepState abState).buf.length = 5 ∧
    (stepState abState).opts.autoGrowBufferMaxLimitSize = 3 ∧
    errOfT (goToken (stepState abState)) = some .eof := by
  refine ⟨by decide, by decide, by decide, by decide, by decide⟩

/-- C5 (amended): if growing the buffer for a single token needs a new
allocation — the grown size exceeds the buffer's current capacity — and the
grown size also exceeds the configured maximum buffer size, then the refill
fails with the wrapped `errAutoGrowBufferExceedMaxLimit`, without reading
any further input and without truncating or modifying the buffer; and the
error, once stored, is sticky and fatal: both entry points keep returning
the stored error and never touch the state again.  (Growth that fits inside
the already-allocated capacity is not limit-checked — see the
counterexample.) -/
theorem c5_buffer_limit_amended :
    (∀ t : Tokenizer,
      t.bufCap < t.buf.length + t.opts.readBufferSize.toNat →
      t.opts.autoGrowBufferMaxLimitSize <
        ((t.buf.length + t.opts.readBufferSize.toNat : Nat) : Int) →
      manageBuffer t =
        (t, some (.couldNotGrow ((t.buf.length + t.opts.readBufferSize.toNat : Nat) : Int)
          t.opts.autoGrowBufferMaxLimitSize .autoGrowExceeded))) ∧
    (∀ (t : Tokenizer) (e : GoErr), t.err = some e →
      goToken t = .ok zeroToken (some e) t ∧ rawToken t = .ok none (some e) t) := by
  constructor
  · intro t h1 h2
    rw [manageBuffer]
    rw [if_neg (by omega), if_pos (by exact_mod_cast h2)]
  · exact sticky_guard

/-- C5 witness: the amended theorem applied to a state two bytes into a
token with capacity 2, increment 1 and maximum 2, plus stickiness of a
stored error on the exhausted DOCTYPE state. -/
theorem c5_buffer_limit_amended_witness :
    manageBuffer overLimitState =
      (overLimitState, some (.couldNotGrow 3 2 .autoGrowExceeded)) ∧
    goToken (stepState (stepState dtdState)) =
      .ok zeroToken (some .eof) (stepState (stepState dtdState)) :=
  ⟨c5_buffer_limit_amended.1 overLimitState (by decide) (by decide),
   (c5_buffer_limit_amended.2 (stepState (stepState dtdState)) .eof (by decide)).1⟩

/-- C9 witness: the theorem applied to the concrete CDATA fixture call. -/
theorem c9_nil_normalization_witness :
    ((⟨tagColonName, none, some someTextHere, false, false⟩ : GoToken).attrs = none ∨
      ∃ a l, (⟨tagColonName, none, some someTextHere, false, false⟩ : GoToken).attrs =
        some (a :: l)) ∧
    ((⟨tagColonName, none, some someTextHere, false, false⟩ : GoToken).data = none ∨
      ∃ c l, (⟨tagColonName, none, some someTextHere, false, false⟩ : GoToken).data =
        some (c :: l)) :=
  c9_nil_normalization cdataState ⟨tagColonName, none, some someTextHere, false, false⟩
    (stepState cdataState) (by decide)

end XmlTokenizer
